import Mathlib

/-!
Verification of the commit differencing and translation engine of
rcowham/gitp4transfer (GitP4Transfer.py) against its natural-language
specification.

The Python source is shallowly embedded: Python strings are `List Char`
(sequences of code points), byte strings are `List Nat` (each element < 256),
fallible code returns `Except PyErr`, and external subprocess output (git
rev-list / diff-tree pipes) is passed in as an explicit list of lines, each
line carrying its trailing newline exactly as `readline` delivers it.
-/

namespace GitP4

/-- Decidable equality for Except values, used to evaluate the embedded
functions on concrete inputs. -/
instance instDecEqExcept {ε α : Type} [DecidableEq ε] [DecidableEq α] :
    DecidableEq (Except ε α) := fun x y =>
  match x, y with
  | .ok a, .ok b =>
    if h : a = b then .isTrue (by rw [h]) else .isFalse (by simp [h])
  | .error a, .error b =>
    if h : a = b then .isTrue (by rw [h]) else .isFalse (by simp [h])
  | .ok _, .error _ => .isFalse (by simp)
  | .error _, .ok _ => .isFalse (by simp)

/-- Python exception outcomes that the embedded code can raise. -/
inductive PyErr where
  | assertionError
  | keyError
  | valueError
  | unicodeDecodeError
  | typeError
  | indexError
  | attributeError
  | p4tLogicException (msg : String)
  | systemExit (msg : String)
  | exception (msg : String)
  | nonTermination
deriving DecidableEq

/-- Python s.startswith(pat) on char lists (argument order: pattern, string). -/
def startsWithL : List Char → List Char → Bool
  | [], _ => true
  | _ :: _, [] => false
  | a :: as, b :: bs => a == b && startsWithL as bs

/-- Python str whitespace (the characters stripped by str.rstrip()). -/
def isPySpace (c : Char) : Bool :=
  c == ' ' || c == '\t' || c == '\n' || c == '\r' || c == '\x0B' || c == '\x0C'

/-- Python s.rstrip(). -/
def pyRstrip (s : List Char) : List Char :=
  (s.reverse.dropWhile isPySpace).reverse

/-- Helper for `pySplitWs`, accumulating the current token in reverse. -/
def pySplitWsAux : List Char → List Char → List (List Char)
  | [], acc => if acc = [] then [] else [acc.reverse]
  | c :: cs, acc =>
    if isPySpace c then
      if acc = [] then pySplitWsAux cs [] else acc.reverse :: pySplitWsAux cs []
    else pySplitWsAux cs (c :: acc)

/-- Python s.split() with no arguments: split on whitespace runs, no empties. -/
def pySplitWs (s : List Char) : List (List Char) := pySplitWsAux s []

/-- Python s.split(None, k): at most k splits on whitespace runs; the
remainder keeps its internal and trailing whitespace. -/
def pySplitWsN : Nat → List Char → List (List Char)
  | k, s =>
    match s.dropWhile isPySpace with
    | [] => []
    | c :: cs =>
      match k with
      | 0 => [c :: cs]
      | k' + 1 =>
        ((c :: cs).takeWhile (fun x => !(isPySpace x))) ::
          pySplitWsN k' ((c :: cs).dropWhile (fun x => !(isPySpace x)))

/-- Helper for `pySplitTab`, accumulating the current piece in reverse. -/
def pySplitTabAux : List Char → List Char → List (List Char)
  | [], acc => [acc.reverse]
  | c :: cs, acc =>
    if c == '\t' then acc.reverse :: pySplitTabAux cs []
    else pySplitTabAux cs (c :: acc)

/-- Python s.split('\t'): keeps empty pieces; result is always nonempty. -/
def pySplitTab (s : List Char) : List (List Char) := pySplitTabAux s []

/-- Python '\n'.join(xs). -/
def pyJoinNL (xs : List (List Char)) : List Char := List.intercalate ['\n'] xs

/-- UTF-8 encoding of one code point (Python str.encode(), per character). -/
def utf8EncodeChar (c : Char) : List Nat :=
  let n := c.toNat
  if n < 0x80 then [n]
  else if n < 0x800 then [0xC0 + n / 64, 0x80 + n % 64]
  else if n < 0x10000 then
    [0xE0 + n / 4096, 0x80 + (n / 64) % 64, 0x80 + n % 64]
  else
    [0xF0 + n / 262144, 0x80 + (n / 4096) % 64, 0x80 + (n / 64) % 64, 0x80 + n % 64]

/-- UTF-8 encoding of a string as a byte list (Python str.encode()). -/
def utf8Encode (s : List Char) : List Nat := s.flatMap utf8EncodeChar

/-- Strict UTF-8 decoding (Python bytes.decode()): rejects stray or missing
continuation bytes, overlong forms, surrogates, and out-of-range values. -/
def utf8Decode : List Nat → Option (List Char)
  | [] => some []
  | b :: rest =>
    if b < 0x80 then (utf8Decode rest).map (fun cs => Char.ofNat b :: cs)
    else if b < 0xC2 then none
    else if b < 0xE0 then
      match rest with
      | b2 :: rest2 =>
        if 0x80 ≤ b2 ∧ b2 < 0xC0 then
          (utf8Decode rest2).map (fun cs => Char.ofNat ((b - 0xC0) * 64 + (b2 - 0x80)) :: cs)
        else none
      | [] => none
    else if b < 0xF0 then
      match rest with
      | b2 :: b3 :: rest2 =>
        if (0x80 ≤ b2 ∧ b2 < 0xC0) ∧ (0x80 ≤ b3 ∧ b3 < 0xC0) then
          let n := (b - 0xE0) * 4096 + (b2 - 0x80) * 64 + (b3 - 0x80)
          if n < 0x800 ∨ (0xD800 ≤ n ∧ n ≤ 0xDFFF) then none
          else (utf8Decode rest2).map (fun cs => Char.ofNat n :: cs)
        else none
      | _ => none
    else if b < 0xF5 then
      match rest with
      | b2 :: b3 :: b4 :: rest2 =>
        if (0x80 ≤ b2 ∧ b2 < 0xC0) ∧ (0x80 ≤ b3 ∧ b3 < 0xC0) ∧ (0x80 ≤ b4 ∧ b4 < 0xC0) then
          let n := (b - 0xF0) * 262144 + (b2 - 0x80) * 4096 + (b3 - 0x80) * 64 + (b4 - 0x80)
          if n < 0x10000 ∨ 0x10FFFF < n then none
          else (utf8Decode rest2).map (fun cs => Char.ofNat n :: cs)
        else none
      | _ => none
    else none

namespace PathQuoting

/-- The `_unescape` dictionary of `PathQuoting` (GitP4Transfer.py lines
394-402), keyed and valued by byte: a→BEL, b→BS, f→FF, n→LF, r→CR, t→TAB,
v→VT, quote→quote, backslash→backslash. -/
def escTable (c : Nat) : Option Nat :=
  if c = 97 then some 7
  else if c = 98 then some 8
  else if c = 102 then some 12
  else if c = 110 then some 10
  else if c = 114 then some 13
  else if c = 116 then some 9
  else if c = 118 then some 11
  else if c = 34 then some 34
  else if c = 92 then some 92
  else none

/-- One scanning step of `_unescape_re.sub(unescape_sequence, ...)`
(GitP4Transfer.py lines 403, 411-414).  The regex is
backslash followed by ([a-z"\\]|[0-9]{3}); the callback raises KeyError for
a lowercase letter outside `_unescape`, and ValueError for an octal escape
with a digit 8/9 (int(seq, 8)) or a value above 255 (bytes([..])).  A
backslash not beginning a match is emitted literally, advancing one byte. -/
def unescapeStep : List Nat → Except PyErr (Option (Nat × List Nat))
  | [] => .ok none
  | b :: rest =>
    if b = 92 then
      match rest with
      | [] => .ok (some (92, []))
      | c :: rest1 =>
        if (97 ≤ c ∧ c ≤ 122) ∨ c = 34 ∨ c = 92 then
          match escTable c with
          | some v => .ok (some (v, rest1))
          | none => .error .keyError
        else if 48 ≤ c ∧ c ≤ 57 then
          match rest1 with
          | d2 :: d3 :: rest2 =>
            if (48 ≤ d2 ∧ d2 ≤ 57) ∧ (48 ≤ d3 ∧ d3 ≤ 57) then
              if c ≤ 55 ∧ d2 ≤ 55 ∧ d3 ≤ 55 then
                if (c - 48) * 64 + (d2 - 48) * 8 + (d3 - 48) ≤ 255 then
                  .ok (some ((c - 48) * 64 + (d2 - 48) * 8 + (d3 - 48), rest2))
                else .error .valueError
              else .error .valueError
            else .ok (some (92, rest))
          | _ => .ok (some (92, rest))
        else .ok (some (92, rest))
    else .ok (some (b, rest))

/-- Fuel-indexed run of the `_unescape_re.sub` scan; the fuel is only a
termination device (each step consumes at least one byte, so
`l.length` fuel always suffices and the nonTermination branch is
unreachable from `unescapeBytes`). -/
def unescapeBytesAux : Nat → List Nat → Except PyErr (List Nat)
  | 0, l =>
    match l with
    | [] => .ok []
    | _ => .error .nonTermination
  | fuel + 1, l =>
    match unescapeStep l with
    | .error e => .error e
    | .ok none => .ok []
    | .ok (some (v, rest)) => (unescapeBytesAux fuel rest).map (fun tl => v :: tl)

/-- `_unescape_re.sub(PathQuoting.unescape_sequence, ...)` over a byte list. -/
def unescapeBytes (l : List Nat) : Except PyErr (List Nat) :=
  unescapeBytesAux l.length l

/-- `PathQuoting.dequote` (GitP4Transfer.py lines 417-424): a string that
starts with a double quote must end with one (assert), is then encoded to
bytes, stripped of its first and last byte, unescaped, and decoded back;
any other string is returned unchanged. -/
def dequote (s : List Char) : Except PyErr (List Char) :=
  if s.head? = some '"' then
    if s.getLast? = some '"' then
      match unescapeBytes ((utf8Encode s).tail.dropLast) with
      | .error e => .error e
      | .ok ub =>
        match utf8Decode ub with
        | some cs => .ok cs
        | none => .error .unicodeDecodeError
    else .error .assertionError
  else .ok s

end PathQuoting

/-- One parsed `git diff-tree` raw line, the dictionary built by
`parseDiffTreeEntry` (GitP4Transfer.py lines 175-210). -/
structure DiffTreeEntry where
  src_mode : List Char
  dst_mode : List Char
  src_sha1 : List Char
  dst_sha1 : List Char
  status : Char
  status_score : Option (List Char)
  src : List Char
  dst : Option (List Char)
deriving DecidableEq

/-- A word character of the re module (the ASCII portion of a word class). -/
def isWordChar (c : Char) : Bool := c.isAlphanum || c == '_'

/-- The tail grammar of the diff-tree regex after the tab: a non-greedy
source path followed by either a tab and a greedy destination path or the
end of the line.  Matches Python re semantics: the dot classes exclude the
newline, and the end anchor accepts the position before a final newline, so
the source path runs to the first tab, or to the end (a line whose newline
is followed by more text does not match). -/
def splitSrcDst : List Char → Option (List Char × Option (List Char))
  | [] => some ([], none)
  | c :: rest =>
    if c = '\t' then some ([], some (rest.takeWhile (fun x => x ≠ '\n')))
    else if c = '\n' then (if rest = [] then some ([], none) else none)
    else
      match splitSrcDst rest with
      | some (sr, d) => some (c :: sr, d)
      | none => none

/-- Longest digit run and remainder. -/
def spanDigits (s : List Char) : List Char × List Char :=
  (s.takeWhile Char.isDigit, s.dropWhile Char.isDigit)

/-- Longest word-character run and remainder. -/
def spanWord (s : List Char) : List Char × List Char :=
  (s.takeWhile isWordChar, s.dropWhile isWordChar)

/-- The anchored match of the `_diff_tree_pattern` regex of
`parseDiffTreeEntry` (GitP4Transfer.py line 196):
colon, digits, space, digits, space, word, space, word, space, one
uppercase letter, an optional digit score, a tab, then the path tail.
The digit and word classes are modelled by their ASCII portions, which
cover every line the git diff-tree format can produce.  Returns none when
the line does not match (Python: the function returns None). -/
def parseDiffTreeRaw (line : List Char) : Option DiffTreeEntry :=
  match line with
  | ':' :: r0 =>
    let (m1, r1) := spanDigits r0
    if m1 = [] then none else
    match r1 with
    | ' ' :: r2 =>
      let (m2, r3) := spanDigits r2
      if m2 = [] then none else
      match r3 with
      | ' ' :: r4 =>
        let (w1, r5) := spanWord r4
        if w1 = [] then none else
        match r5 with
        | ' ' :: r6 =>
          let (w2, r7) := spanWord r6
          if w2 = [] then none else
          match r7 with
          | ' ' :: st :: r8 =>
            if 'A' ≤ st ∧ st ≤ 'Z' then
              let (sc, r9) := spanDigits r8
              match r9 with
              | '\t' :: r10 =>
                match splitSrcDst r10 with
                | some (src, dst) =>
                  some { src_mode := m1, dst_mode := m2, src_sha1 := w1, dst_sha1 := w2,
                         status := st,
                         status_score := if sc = [] then none else some sc,
                         src := src, dst := dst }
                | none => none
              | _ => none
            else none
          | _ => none
        | _ => none
      | _ => none
    | _ => none
  | _ => none

/-- `parseDiffTreeEntry` (GitP4Transfer.py lines 175-210): parse one raw
diff line; a non-matching line yields None (not an error), a matching line
yields the groups with the two paths dequoted (`PathQuoting.dequote` is
applied to the source group and to the optional destination group, and its
exceptions propagate). -/
def parseDiffTreeEntry (line : List Char) : Except PyErr (Option DiffTreeEntry) :=
  match parseDiffTreeRaw line with
  | none => .ok none
  | some raw =>
    match PathQuoting.dequote raw.src with
    | .error e => .error e
    | .ok src =>
      match raw.dst with
      | none => .ok (some { raw with src := src, dst := none })
      | some d =>
        match PathQuoting.dequote d with
        | .error e => .error e
        | .ok dd => .ok (some { raw with src := src, dst := some dd })

/-- `isModeExec` (GitP4Transfer.py lines 162-165): mode[-3:] == "755". -/
def isModeExec (mode : List Char) : Bool :=
  mode.drop (mode.length - 3) == ['7', '5', '5']

/-- `isModeExecChanged` (GitP4Transfer.py lines 168-169). -/
def isModeExecChanged (src_mode dst_mode : List Char) : Bool :=
  isModeExec src_mode != isModeExec dst_mode

/-- Python str.replace(pat, rep) for a nonempty pattern (head and tail):
leftmost, non-overlapping, the replacement text is not rescanned. -/
def strReplace (p : Char × List Char) (rep : List Char) : List Char → List Char
  | [] => []
  | c :: cs =>
    if startsWithL (p.1 :: p.2) (c :: cs) then
      rep ++ strReplace p rep ((c :: cs).drop (p.1 :: p.2).length)
    else c :: strReplace p rep cs
termination_by l => l.length
decreasing_by
  all_goals simp
  omega

/-- `wildcard_decode` (GitP4Transfer.py lines 135-145): restore the four
reserved characters; %2A only outside Windows, %25 last. -/
def wildcard_decode (isWindows : Bool) (path : List Char) : List Char :=
  let p0 := if isWindows then path else strReplace ('%', ['2', 'A']) ['*'] path
  let p1 := strReplace ('%', ['2', '3']) ['#'] p0
  let p2 := strReplace ('%', ['4', '0']) ['@'] p1
  strReplace ('%', ['2', '5']) ['%'] p2

/-- `wildcard_encode` (GitP4Transfer.py lines 148-154): percent-escape the
four reserved characters, % first to avoid double-encoding. -/
def wildcard_encode (path : List Char) : List Char :=
  let p1 := strReplace ('%', []) ['%', '2', '5'] path
  let p2 := strReplace ('*', []) ['%', '2', 'A'] p1
  let p3 := strReplace ('#', []) ['%', '2', '3'] p2
  strReplace ('@', []) ['%', '4', '0'] p3

/-- `wildcard_present` (GitP4Transfer.py lines 157-159). -/
def wildcard_present (path : List Char) : Bool :=
  path.any (fun c => c == '*' || c == '#' || c == '@' || c == '%')

/-- Python int(s, 8) followed by a comparison use, restricted to the digit
strings produced by the diff-tree mode groups: octal digits only; a digit
8 or 9 (or an empty string) raises ValueError, modelled as none. -/
def pyIntOctal (s : List Char) : Option Nat :=
  if s ≠ [] ∧ s.all (fun c => decide (48 ≤ c.toNat ∧ c.toNat ≤ 55)) then
    some (s.foldl (fun acc c => acc * 8 + (c.toNat - 48)) 0)
  else none

/-- One staged p4 operation issued by the Change Translator. -/
inductive P4Cmd where
  | recAddForce (f : List Char)
  | recEdit (f : List Char)
  | recDelete (f : List Char)
  | edit (f : List Char)
  | editK (f : List Char)
  | editTypeAuto (f : List Char)
  | add (f : List Char)
  | addForce (f : List Char)
  | delete (f : List Char)
  | revert (f : List Char)
  | integrate (src dst : List Char)
  | move (src dst : List Char)
deriving DecidableEq

/-- Ordered dictionary upsert (Python dict assignment). -/
def dictInsert {V : Type} (d : List (List Char × V)) (k : List Char) (v : V) :
    List (List Char × V) :=
  if d.any (fun kv => kv.1 == k) then
    d.map (fun kv => if kv.1 == k then (k, v) else kv)
  else d ++ [(k, v)]

/-- The mutable staging structures of the diff loop of
`P4Target.replicateCommit` (GitP4Transfer.py lines 1043-1050), plus the
ordered log of p4 commands issued while scanning. -/
structure StagingState where
  filesToAdd : Finset (List Char)
  filesToChangeType : Finset (List Char)
  filesToDelete : Finset (List Char)
  editedFiles : Finset (List Char)
  pureRenameCopy : Finset (List Char)
  symlinks : Finset (List Char)
  filesToChangeExecBit : List (List Char × List Char)
  all_files : List (List Char)
  cmds : List P4Cmd
deriving DecidableEq

/-- The empty staging state at the top of the diff loop. -/
def initialStaging : StagingState :=
  { filesToAdd := ∅, filesToChangeType := ∅, filesToDelete := ∅,
    editedFiles := ∅, pureRenameCopy := ∅, symlinks := ∅,
    filesToChangeExecBit := [], all_files := [], cmds := [] }

/-- One iteration of the diff loop of `P4Target.replicateCommit`
(GitP4Transfer.py lines 1052-1103) on an already parsed entry.  The A
branch parses the octal destination mode with int(.., 8) after updating the
sets; the C branch reads the undefined attribute `self.isWindows`, so every
Copied entry raises AttributeError after issuing its integrate/edit
commands (the raised exception discards the commit, so the partial state is
not observable); a Renamed entry with no destination path, like a Copied
one, fails on `wildcard_encode(None)`. -/
def processEntry (st : StagingState) (d : DiffTreeEntry) : Except PyErr StagingState :=
  let st0 := { st with all_files := st.all_files ++ [d.src] }
  if d.status = 'M' then
    let st1 := { st0 with cmds := st0.cmds ++ [P4Cmd.edit (wildcard_encode d.src)] }
    let st2 :=
      if isModeExecChanged d.src_mode d.dst_mode then
        { st1 with filesToChangeExecBit := dictInsert st1.filesToChangeExecBit d.src d.dst_mode }
      else st1
    .ok { st2 with editedFiles := insert d.src st2.editedFiles }
  else if d.status = 'A' then
    let st1 := { st0 with
      filesToAdd := insert d.src st0.filesToAdd,
      filesToChangeExecBit := dictInsert st0.filesToChangeExecBit d.src d.dst_mode,
      filesToDelete := st0.filesToDelete.erase d.src }
    match pyIntOctal d.dst_mode with
    | none => .error .valueError
    | some m =>
      if m = 0o120000 then .ok { st1 with symlinks := insert d.src st1.symlinks }
      else .ok st1
  else if d.status = 'D' then
    .ok { st0 with
      filesToDelete := insert d.src st0.filesToDelete,
      filesToAdd := st0.filesToAdd.erase d.src }
  else if d.status = 'C' then
    .error .attributeError
  else if d.status = 'R' then
    match d.dst with
    | none => .error .attributeError
    | some dest =>
      let st1 := { st0 with
        all_files := st0.all_files ++ [dest],
        cmds := st0.cmds ++ [P4Cmd.editK (wildcard_encode d.src),
                             P4Cmd.move (wildcard_encode d.src) (wildcard_encode dest)] }
      let st2 :=
        if isModeExecChanged d.src_mode d.dst_mode then
          { st1 with filesToChangeExecBit := dictInsert st1.filesToChangeExecBit dest d.dst_mode }
        else st1
      .ok { st2 with editedFiles := insert dest st2.editedFiles }
  else if d.status = 'T' then
    .ok { st0 with filesToChangeType := insert d.src st0.filesToChangeType }
  else .error (.exception "unknown modifier")

/-- One line of the diff loop: parse, then subscript the result.  A
non-matching line makes `parseDiffTreeEntry` return None, and the
unconditional `diff[..]` accesses on the next source line then raise
TypeError (NoneType is not subscriptable). -/
def processDiffLine (st : StagingState) (line : List Char) : Except PyErr StagingState :=
  match parseDiffTreeEntry line with
  | .error e => .error e
  | .ok none => .error .typeError
  | .ok (some d) => processEntry st d

/-- The whole diff loop of `P4Target.replicateCommit` over the lines of the
`git diff-tree -r -M` pipe. -/
def processDiffLines (lines : List (List Char)) : Except PyErr StagingState :=
  lines.foldlM processDiffLine initialStaging

/-- After the diff loop the translator stages a p4 delete for exactly the
members of filesToDelete (GitP4Transfer.py lines 1109-1111). -/
def stagedForDeletion (lines : List (List Char)) (p : List Char) : Bool :=
  match processDiffLines lines with
  | .ok st => decide (p ∈ st.filesToDelete)
  | .error _ => false

/-- After the diff loop the translator stages a p4 add for exactly the
members of filesToAdd (GitP4Transfer.py lines 1107-1108). -/
def stagedForAddition (lines : List (List Char)) (p : List Char) : Bool :=
  match processDiffLines lines with
  | .ok st => decide (p ∈ st.filesToAdd)
  | .error _ => false

/-- Whether a translator step succeeded. -/
def isOkSt (r : Except PyErr StagingState) : Bool :=
  match r with
  | .ok _ => true
  | .error _ => false

/-- Membership of a path in filesToAdd of a translator step result. -/
def addMem (r : Except PyErr StagingState) (p : List Char) : Bool :=
  match r with
  | .ok st => decide (p ∈ st.filesToAdd)
  | .error _ => false

/-- Membership of a path in filesToDelete of a translator step result. -/
def delMem (r : Except PyErr StagingState) (p : List Char) : Bool :=
  match r with
  | .ok st => decide (p ∈ st.filesToDelete)
  | .error _ => false

/-- A concrete raw diff line adding the file foo. -/
def exAddFoo : List Char := ":000000 100644 0000000 1111111 A\tfoo\n".toList

/-- A concrete raw diff line deleting the file foo. -/
def exDelFoo : List Char := ":100644 000000 1111111 0000000 D\tfoo\n".toList

/-- The parsed Added entry for foo. -/
def exEntryA : DiffTreeEntry :=
  { src_mode := "000000".toList, dst_mode := "100644".toList,
    src_sha1 := "0000000".toList, dst_sha1 := "1111111".toList,
    status := 'A', status_score := none, src := "foo".toList, dst := none }

/-- The parsed Deleted entry for foo. -/
def exEntryD : DiffTreeEntry :=
  { src_mode := "100644".toList, dst_mode := "000000".toList,
    src_sha1 := "1111111".toList, dst_sha1 := "0000000".toList,
    status := 'D', status_score := none, src := "foo".toList, dst := none }

/-- `GitFileChanges` (GitP4Transfer.py lines 427-434): the per-commit file
change records captured by the history extractor. -/
structure GitFileChanges where
  modes : List (List Char)
  shas : List (List Char)
  changeTypes : List Char
  filenames : List (List Char)
deriving DecidableEq

/-- Processing of one captured file change of a parentless commit
(GitP4Transfer.py lines 1028-1039): an entry with no filenames raises
IndexError on filenames[0]; an empty first filename is falsy and the entry
is silently skipped; otherwise the first filename is dequoted and the
status selects `p4 rec -af`, `rec -e`, `rec -d`, or raises
P4TLogicException. -/
def processInitialFC (fc : GitFileChanges) : Except PyErr (List P4Cmd) :=
  match fc.filenames.head? with
  | none => .error .indexError
  | some f0 =>
    if f0 = [] then .ok []
    else
      match PathQuoting.dequote f0 with
      | .error e => .error e
      | .ok filename =>
        if fc.changeTypes = ['A'] then .ok [P4Cmd.recAddForce filename]
        else if fc.changeTypes = ['M'] then .ok [P4Cmd.recEdit filename]
        else if fc.changeTypes = ['D'] then .ok [P4Cmd.recDelete filename]
        else .error (.p4tLogicException "Action not yet implemented")

/-- The initial-import loop of `P4Target.replicateCommit` (GitP4Transfer.py
lines 1027-1039) over the chosen file-change list, collecting the p4
commands in order; the first exception aborts the commit. -/
def processInitialCommit : List GitFileChanges → Except PyErr (List P4Cmd)
  | [] => .ok []
  | fc :: rest =>
    match processInitialFC fc with
    | .error e => .error e
    | .ok cmds =>
      match processInitialCommit rest with
      | .error e => .error e
      | .ok more => .ok (cmds ++ more)

/-- A captured file change with composite status MM. -/
def exFcMM : GitFileChanges :=
  { modes := [], shas := [], changeTypes := ['M', 'M'], filenames := ["foo".toList] }

/-- A captured file change with status A for foo. -/
def exFcA : GitFileChanges :=
  { modes := [], shas := [], changeTypes := ['A'], filenames := ["foo".toList] }

/-- A captured file change with unknown status X and an EMPTY first
filename. -/
def exFcX : GitFileChanges :=
  { modes := [], shas := [], changeTypes := ['X'], filenames := [[]] }

/-- A captured file change with unknown status X and a nonempty filename. -/
def exFcBad : GitFileChanges :=
  { modes := [], shas := [], changeTypes := ['X'], filenames := ["foo".toList] }

/-- `GitCommit` (GitP4Transfer.py lines 437-449): the per-commit record
built by the history extractor (branch fields are not used by the
replication path modelled here). -/
structure GitCommit where
  commitID : List Char
  name : List Char
  email : List Char
  description : List Char
  parents : List (List Char)
  fileChanges : List GitFileChanges
deriving DecidableEq

/-- One readline on the modelled pipe: the next line, or the empty string
at end of input. -/
def readline : List (List Char) → (List Char × List (List Char))
  | [] => ([], [])
  | l :: ls => (l, ls)

/-- The description loop shared by `getBasicCommitInfo` and
`getCommitDiffs` (GitP4Transfer.py lines 491-497 and 530-536): read lines
until one starts with the __END_OF_DESC__ sentinel, collecting the
non-blank rstripped lines.  At end of input Python rereads the empty string
forever; that divergence is modelled as the nonTermination error. -/
def readDesc : List (List Char) → Except PyErr (List (List Char) × List (List Char))
  | [] => .error .nonTermination
  | l :: ls =>
    let line := pyRstrip l
    if startsWithL "__END_OF_DESC__".toList line then .ok ([], ls)
    else if line ≠ [] then
      match readDesc ls with
      | .error e => .error e
      | .ok (d, r) => .ok (line :: d, r)
    else readDesc ls

/-- The body loop of `GitInfo.getBasicCommitInfo` (GitP4Transfer.py lines
483-499), fuel-indexed (every iteration consumes at least the sentinel
line, so a fuel of one more than the input length always suffices). -/
def getBasicCommitInfoLoop : Nat → List Char → List (List Char) →
    List (List Char × GitCommit) → Except PyErr (List (List Char × GitCommit))
  | 0, _, _, _ => .error .nonTermination
  | fuel + 1, line, input, acc =>
    if line = [] then .ok acc
    else
      match (pySplitWs (pyRstrip line))[1]? with
      | none => .error .indexError
      | some commitID =>
        let (nameL, input1) := readline input
        let name := pyRstrip nameL
        let (emailL, input2) := readline input1
        let email := pyRstrip emailL
        match readDesc input2 with
        | .error e => .error e
        | .ok (desc, input3) =>
          let commit : GitCommit :=
            { commitID := commitID, name := name, email := email,
              description := pyJoinNL desc, parents := [], fileChanges := [] }
          let (line2, input4) := readline input3
          getBasicCommitInfoLoop fuel line2 input4 (dictInsert acc commitID commit)

/-- `GitInfo.getBasicCommitInfo` (GitP4Transfer.py lines 470-504) over
the lines of the rev-list pipe: an empty history raises SystemExit. -/
def getBasicCommitInfo (input : List (List Char)) :
    Except PyErr (List (List Char × GitCommit)) :=
  match input with
  | [] => .error (.systemExit "Nothing to analyze; repository is empty.")
  | l :: ls => getBasicCommitInfoLoop (input.length + 1) l ls []

/-- Parsing of one raw combined-diff line inside `GitInfo.getCommitDiffs`
(GitP4Transfer.py lines 558-568): n = 1 + max(1, number of parents) leading
colons are asserted, the trailing byte is stripped, the line is split into
n modes, n hashes, then tab-separated status and dequoted filenames; a
short line raises IndexError on splits[n]. -/
def parseFileChangeLine (nparents : Nat) (line : List Char) :
    Except PyErr GitFileChanges :=
  let n := 1 + max 1 nparents
  if startsWithL (List.replicate (n - 1) ':') line then
    let relevant := (line.drop (n - 1)).dropLast
    let splits := pySplitWsN n relevant
    let modes := splits.take n
    match splits[n]? with
    | none => .error .indexError
    | some rest1 =>
      let splits2 := pySplitWsN n rest1
      let shas := splits2.take n
      match splits2[n]? with
      | none => .error .indexError
      | some rest2 =>
        match pySplitTab rest2 with
        | [] => .error .indexError
        | ct :: fns =>
          match fns.mapM PathQuoting.dequote with
          | .error e => .error e
          | .ok filenames =>
            .ok { modes := modes, shas := shas, changeTypes := ct, filenames := filenames }
  else .error .assertionError

/-- The inner for-loop of `GitInfo.getCommitDiffs` (lines 553-568) reading
raw file-change lines until one does not start with a colon; returns the
parsed changes, the breaking line if any (it is the next commit header and
the loop continues with it), and the remaining input. -/
def readFileChanges (nparents : Nat) :
    List (List Char) →
      Except PyErr (List GitFileChanges × Option (List Char) × List (List Char))
  | [] => .ok ([], none, [])
  | l :: ls =>
    if l.head? = some ':' then
      match parseFileChangeLine nparents l with
      | .error e => .error e
      | .ok fc =>
        match readFileChanges nparents ls with
        | .error e => .error e
        | .ok (fcs, brk, rest) => .ok (fc :: fcs, brk, rest)
    else .ok ([], some l, ls)

/-- The outer loop of `GitInfo.getCommitDiffs` (GitP4Transfer.py lines
524-573), fuel-indexed: per commit it reads the header lines (id, parents,
committer name and email, description until the sentinel, date), then a
lookahead line; a blank lookahead means raw file-change lines follow, a
non-blank one is the next commit header, a missing one ends the walk. -/
def getCommitDiffsLoop : Nat → List Char → List (List Char) →
    List (List Char) → List (List Char × GitCommit) →
    Except PyErr (List (List Char) × List (List Char × GitCommit))
  | 0, _, _, _, _ => .error .nonTermination
  | fuel + 1, line, input, commitList, commits =>
    if line = [] then .ok (commitList, commits)
    else
      let commitID := pyRstrip line
      let (parentsL, input1) := readline input
      let parents := pySplitWs parentsL
      let (nameL, input2) := readline input1
      let name := pyRstrip nameL
      let (emailL, input3) := readline input2
      let email := pyRstrip emailL
      match readDesc input3 with
      | .error e => .error e
      | .ok (desc, input4) =>
        let (_dateL, input5) := readline input4
        let (line2raw, input6) := readline input5
        let contAfter := line2raw ≠ []
        let line2 := pyRstrip line2raw
        if contAfter ∧ line2 = [] then
          match readFileChanges parents.length input6 with
          | .error e => .error e
          | .ok (fcs, brk, input7) =>
            let commit : GitCommit :=
              { commitID := commitID, name := name, email := email,
                description := pyJoinNL desc, parents := parents, fileChanges := fcs }
            let commits2 := dictInsert commits commitID commit
            let commitList2 := commitList ++ [commitID]
            match brk with
            | some nextLine => getCommitDiffsLoop fuel nextLine input7 commitList2 commits2
            | none => .ok (commitList2, commits2)
        else
          let commit : GitCommit :=
            { commitID := commitID, name := name, email := email,
              description := pyJoinNL desc, parents := parents, fileChanges := [] }
          let commits2 := dictInsert commits commitID commit
          let commitList2 := commitList ++ [commitID]
          if contAfter then getCommitDiffsLoop fuel line2 input6 commitList2 commits2
          else .ok (commitList2, commits2)

/-- `GitInfo.getCommitDiffs` (GitP4Transfer.py lines 506-579) over the
lines of the rev-list | diff-tree pipe.  An empty history returns the
normal empty result (commit list and map both empty). -/
def getCommitDiffs (input : List (List Char)) :
    Except PyErr (List (List Char) × List (List Char × GitCommit)) :=
  match input with
  | [] => .ok ([], [])
  | l :: ls => getCommitDiffsLoop (input.length + 1) l ls [] []

/-- The cursor-filter step of `GitSource.missingCommits` (GitP4Transfer.py
lines 890-894): drop everything up to and including the first occurrence of
the counter value; a counter that does not occur raises ValueError inside
list.index, which is swallowed, leaving the list unchanged. -/
def cursorFilter (commitList : List (List Char)) (counter : List Char) :
    List (List Char) :=
  match commitList.findIdx? (fun x => x == counter) with
  | some i => commitList.drop (i + 1)
  | none => commitList

/-- The bound computation of `GitSource.missingCommits` (lines 897-901):
maxChanges is change_batch_size when truthy, further lowered to maximum
when that is truthy and smaller. -/
def computeMaxChanges (change_batch_size : Int) (maximum : Option Int) : Int :=
  let mc : Int := if change_batch_size ≠ 0 then change_batch_size else 0
  match maximum with
  | some m => if m ≠ 0 ∧ m < mc then m else mc
  | none => mc

/-- The truncation step of `GitSource.missingCommits` (lines 902-903):
applied only when the computed bound is positive. -/
def truncateChanges (mc : Int) (l : List (List Char)) : List (List Char) :=
  if 0 < mc then l.take mc.toNat else l

/-- `GitSource.missingCommits` (GitP4Transfer.py lines 885-907): extract
the commit list from the git pipe output, drop the already-replicated
prefix ending at the counter, and truncate to the configured bound. -/
def missingCommits (input : List (List Char)) (counter : List Char)
    (change_batch_size : Int) (maximum : Option Int) :
    Except PyErr (List (List Char) × List (List Char × GitCommit)) :=
  match getCommitDiffs input with
  | .error e => .error e
  | .ok (commitList, commits) =>
    .ok (truncateChanges (computeMaxChanges change_batch_size maximum)
          (cursorFilter commitList counter), commits)

/-- The commit list returned by a successful missingCommits run. -/
def missingCommitsList (input : List (List Char)) (counter : List Char)
    (change_batch_size : Int) (maximum : Option Int) :
    Option (List (List Char)) :=
  match missingCommits input counter change_batch_size maximum with
  | .ok (cl, _) => some cl
  | .error _ => none

/-- The commit list extracted by a successful getCommitDiffs run. -/
def getCommitDiffsList (input : List (List Char)) : Option (List (List Char)) :=
  match getCommitDiffs input with
  | .ok (cl, _) => some cl
  | .error _ => none

/-- A concrete rev-list | diff-tree pipe output describing two root
commits c1 and c2 that modify no files. -/
def exGitLines : List (List Char) :=
  ["c1\n".toList, "\n".toList, "a\n".toList, "a@b\n".toList, "d1\n".toList,
   "__END_OF_DESC__\n".toList, "2021\n".toList,
   "c2\n".toList, "\n".toList, "a\n".toList, "a@b\n".toList, "d2\n".toList,
   "__END_OF_DESC__\n".toList, "2021\n".toList]

/-- The commit map that `getCommitDiffs` builds from `exGitLines`. -/
def exGitCommits : List (List Char × GitCommit) :=
  [("c1".toList,
    { commitID := "c1".toList, name := "a".toList, email := "a@b".toList,
      description := "d1".toList, parents := [], fileChanges := [] }),
   ("c2".toList,
    { commitID := "c2".toList, name := "a".toList, email := "a@b".toList,
      description := "d2".toList, parents := [], fileChanges := [] })]

/-- The outcome of one replication run. -/
inductive RunOutcome where
  | completed
  | stoppedEarly
  | failedCommit (id : List Char)
deriving DecidableEq

/-- The replication loop of `GitP4Transfer.replicate_commits`
(GitP4Transfer.py lines 1334-1344) over the pending commit ids.  The
environment is abstracted by two oracles: `repl id` tells whether
`P4Target.replicateCommit` for that commit returns without raising (an
exception propagates and aborts the run), and `endDt n` is the
`endDatetimeExceeded` poll before the n-th commit.  The state is the
persisted target counter plus the number of changes transferred; the
counter is set to a commit id by `setCounter` only on the line directly
after its `replicateCommit` returned. -/
def replicate_commits (repl : List Char → Bool) (endDt : Nat → Bool) :
    List (List Char) → List Char → Nat → (List Char × Nat × RunOutcome)
  | [], counter, n => (counter, n, .completed)
  | id :: rest, counter, n =>
    if endDt n then (counter, n, .stoppedEarly)
    else if repl id then replicate_commits repl endDt rest id (n + 1)
    else (counter, n, .failedCommit id)

/-- The ids actually submitted by a run of the replication loop: the
longest prefix of the pending list processed before a deadline stop or a
failing commit. -/
def submittedIds (repl : List Char → Bool) (endDt : Nat → Bool) :
    List (List Char) → Nat → List (List Char)
  | [], _ => []
  | id :: rest, n =>
    if endDt n then []
    else if repl id then id :: submittedIds repl endDt rest (n + 1)
    else []

/-- The effect of wildcard encoding on one character after the first
replace (percent escaped). -/
def mPercent (x : Char) : List Char :=
  if x = '%' then ['%', '2', '5'] else [x]

/-- Per-character effect after the percent and star replaces. -/
def mPS (x : Char) : List Char :=
  if x = '%' then ['%', '2', '5'] else if x = '*' then ['%', '2', 'A'] else [x]

/-- Per-character effect after the percent, star, and hash replaces. -/
def mPSH (x : Char) : List Char :=
  if x = '%' then ['%', '2', '5'] else if x = '*' then ['%', '2', 'A']
  else if x = '#' then ['%', '2', '3'] else [x]

/-- Per-character effect of the full wildcard encoding. -/
def mAll (x : Char) : List Char :=
  if x = '%' then ['%', '2', '5'] else if x = '*' then ['%', '2', 'A']
  else if x = '#' then ['%', '2', '3'] else if x = '@' then ['%', '4', '0'] else [x]

/-- Per-character state after decoding restores the star. -/
def mPHA (x : Char) : List Char :=
  if x = '%' then ['%', '2', '5'] else if x = '#' then ['%', '2', '3']
  else if x = '@' then ['%', '4', '0'] else [x]

/-- Per-character state after decoding restores the star and the hash. -/
def mPA (x : Char) : List Char :=
  if x = '%' then ['%', '2', '5'] else if x = '@' then ['%', '4', '0'] else [x]

/-- Parsing of one raw line inside `GitInfo.getFileChanges`
(GitP4Transfer.py lines 589-604): n is hard-wired to 2, the trailing byte
is stripped, the line splits into 2 modes, 2 hashes, then tab-separated
status and filenames; unlike the combined-diff reader the filenames are
NOT dequoted (line 603 keeps them raw).  A short line raises IndexError on
splits[n]. -/
def parseSingleParentDiffLine (line : List Char) : Except PyErr GitFileChanges :=
  let n := 2
  if startsWithL (List.replicate (n - 1) ':') line then
    let relevant := (line.drop (n - 1)).dropLast
    let splits := pySplitWsN n relevant
    let modes := splits.take n
    match splits[n]? with
    | none => .error .indexError
    | some rest1 =>
      let splits2 := pySplitWsN n rest1
      let shas := splits2.take n
      match splits2[n]? with
      | none => .error .indexError
      | some rest2 =>
        match pySplitTab rest2 with
        | [] => .error .indexError
        | ct :: fns =>
          .ok { modes := modes, shas := shas, changeTypes := ct, filenames := fns }
  else .error .assertionError

/-- The line loop of `GitInfo.getFileChanges` (lines 589-604): lines not
starting with a colon are skipped (continue), colon lines are parsed and
collected in order. -/
def readSingleParentDiff : List (List Char) → Except PyErr (List GitFileChanges)
  | [] => .ok []
  | l :: ls =>
    if l.head? = some ':' then
      match parseSingleParentDiffLine l with
      | .error e => .error e
      | .ok fc =>
        match readSingleParentDiff ls with
        | .error e => .error e
        | .ok fcs => .ok (fc :: fcs)
    else readSingleParentDiff ls

/-- `GitInfo.getFileChanges` (GitP4Transfer.py lines 581-608): re-derive a
commit's file changes by a direct diff against its first parent.  The
command string is built from commit.parents[0] (line 583), so a parentless
commit raises IndexError before the subprocess ever runs; the subprocess
output is external input, passed in as its list of lines. -/
def getFileChanges (commit : GitCommit) (diffOutput : List (List Char)) :
    Except PyErr (List GitFileChanges) :=
  match commit.parents.head? with
  | none => .error .indexError
  | some _ => readSingleParentDiff diffOutput

/-- The fallback step of `P4Target.replicateCommit` (GitP4Transfer.py
lines 1022-1025): if the captured file-change list is empty, or some entry
has composite status MM, discard it and call `GitInfo.getFileChanges`
against the commit's first parent (this runs BEFORE the parentless check
at line 1027, so it can raise IndexError); otherwise use the captured list
as-is. -/
def effectiveFileChanges (commit : GitCommit) (diffOutput : List (List Char)) :
    Except PyErr (List GitFileChanges) :=
  if commit.fileChanges.isEmpty
      || decide (0 < (commit.fileChanges.filter
            (fun f => f.changeTypes == ['M', 'M'])).length) then
    getFileChanges commit diffOutput
  else .ok commit.fileChanges

/-- A parentless commit with an empty captured file-change list (an empty
root commit). -/
def exRootCommit : GitCommit :=
  { commitID := "c1".toList, name := "a".toList, email := "a@b".toList,
    description := "d1".toList, parents := [], fileChanges := [] }

/-- A commit with one parent and an empty captured file-change list. -/
def exChildCommit : GitCommit :=
  { commitID := "c2".toList, name := "a".toList, email := "a@b".toList,
    description := "d2".toList, parents := ["p1".toList], fileChanges := [] }

/-- A commit with one parent whose captured list holds one MM entry. -/
def exMMCommit : GitCommit :=
  { commitID := "c3".toList, name := "a".toList, email := "a@b".toList,
    description := "d3".toList, parents := ["p1".toList], fileChanges := [exFcMM] }

/-- A commit with one parent whose captured list holds one plain A entry. -/
def exKeepCommit : GitCommit :=
  { commitID := "c4".toList, name := "a".toList, email := "a@b".toList,
    description := "d4".toList, parents := ["p1".toList], fileChanges := [exFcA] }

/-- One raw line of a single-parent `git diff-tree -r` output modifying
foo. -/
def exDiffLineM : List Char := ":100644 100644 abc1234 def5678 M\tfoo\n".toList

/-- The file change that `getFileChanges` parses out of `exDiffLineM`. -/
def exFcDerivedM : GitFileChanges :=
  { modes := ["100644".toList, "100644".toList],
    shas := ["abc1234".toList, "def5678".toList],
    changeTypes := ['M'], filenames := ["foo".toList] }

namespace PathQuoting

/-- `unescapeStep` consumes at least one byte when it produces output. -/
theorem unescapeStep_shrink (l rest : List Nat) (v : Nat)
    (h : unescapeStep l = .ok (some (v, rest))) : rest.length < l.length := by
  cases l with
  | nil => simp [unescapeStep] at h
  | cons b tl =>
    simp only [unescapeStep] at h
    repeat' split at h
    all_goals (try simp_all)
    all_goals omega

/-- A failing `unescapeStep` raises exactly KeyError or ValueError. -/
theorem unescapeStep_error (l : List Nat) (e : PyErr)
    (h : unescapeStep l = .error e) : e = .keyError ∨ e = .valueError := by
  cases l with
  | nil => simp [unescapeStep] at h
  | cons b tl =>
    simp only [unescapeStep] at h
    repeat' split at h
    all_goals simp_all

/-- Unfolding lemma for a failing step. -/
theorem unescapeBytesAux_succ_error (n : Nat) (l : List Nat) (e : PyErr)
    (h : unescapeStep l = .error e) : unescapeBytesAux (n + 1) l = .error e := by
  simp [unescapeBytesAux, h]

/-- Unfolding lemma for an exhausted scan. -/
theorem unescapeBytesAux_succ_none (n : Nat) (l : List Nat)
    (h : unescapeStep l = .ok none) : unescapeBytesAux (n + 1) l = .ok [] := by
  simp [unescapeBytesAux, h]

/-- Unfolding lemma for a producing step. -/
theorem unescapeBytesAux_succ_ok (n : Nat) (l rest : List Nat) (v : Nat)
    (h : unescapeStep l = .ok (some (v, rest))) :
    unescapeBytesAux (n + 1) l = (unescapeBytesAux n rest).map (fun tl => v :: tl) := by
  simp [unescapeBytesAux, h]

/-- A failing unescape run raises exactly KeyError or ValueError. -/
theorem unescapeBytesAux_error (fuel : Nat) :
    ∀ (l : List Nat) (e : PyErr), l.length ≤ fuel →
      unescapeBytesAux fuel l = .error e → e = .keyError ∨ e = .valueError := by
  induction fuel with
  | zero =>
    intro l e hl h
    cases l with
    | nil => simp [unescapeBytesAux] at h
    | cons b tl => simp at hl
  | succ n ih =>
    intro l e hl h
    cases hstep : unescapeStep l with
    | error e2 =>
      rw [unescapeBytesAux_succ_error n l e2 hstep] at h
      simp only [Except.error.injEq] at h
      subst h
      exact unescapeStep_error l _ hstep
    | ok o =>
      cases o with
      | none => rw [unescapeBytesAux_succ_none n l hstep] at h; simp at h
      | some p =>
        obtain ⟨v, rest⟩ := p
        rw [unescapeBytesAux_succ_ok n l rest v hstep] at h
        cases hrec : unescapeBytesAux n rest with
        | error e3 =>
          rw [hrec] at h
          simp only [Except.map, Except.error.injEq] at h
          subst h
          have hlen := unescapeStep_shrink l rest v hstep
          exact ih rest _ (by omega) hrec
        | ok tl =>
          rw [hrec] at h
          simp [Except.map] at h

end PathQuoting

/-- Claim C10, counterexample: the input string made of the four characters
quote backslash z quote starts with a double quote AND carries its closing
quote, yet `PathQuoting.dequote` is not total on it: the escape sequence
backslash-z is matched by `_unescape_re` but is absent from the `_unescape`
dictionary, so `unescape_sequence` raises KeyError. -/
theorem C10_dequote_counterexample :
    (['"', '\\', 'z', '"'].head? = some '"') ∧
    (['"', '\\', 'z', '"'].getLast? = some '"') ∧
    PathQuoting.dequote ['"', '\\', 'z', '"'] = .error .keyError := by
  decide

/-- Claim C10 (amended): for every input starting with a double quote,
`PathQuoting.dequote` asserts that it also ends with one (an input starting
but not ending with a quote fails the assertion); an input not starting with
a quote is returned unchanged; a quoted input is unescaped and decoded, and
this succeeds exactly when the escape scan and the UTF-8 decode succeed —
dequote is NOT total on all closing-quoted inputs: it can additionally raise
KeyError or ValueError (malformed escape sequences) or UnicodeDecodeError
(unescaped bytes that are not valid UTF-8), and those are its only failure
modes besides the assertion. -/
theorem C10_dequote_amended :
    (∀ s : List Char, s.head? = some '"' → s.getLast? ≠ some '"' →
        PathQuoting.dequote s = .error .assertionError) ∧
    (∀ s : List Char, s.head? ≠ some '"' → PathQuoting.dequote s = .ok s) ∧
    (∀ (s : List Char) (ub : List Nat) (cs : List Char),
        s.head? = some '"' → s.getLast? = some '"' →
        PathQuoting.unescapeBytes ((utf8Encode s).tail.dropLast) = .ok ub →
        utf8Decode ub = some cs →
        PathQuoting.dequote s = .ok cs) ∧
    (∀ (s : List Char) (e : PyErr), PathQuoting.dequote s = .error e →
        e = .assertionError ∨ e = .keyError ∨ e = .valueError ∨ e = .unicodeDecodeError) := by
  refine ⟨?_, ?_, ?_, ?_⟩
  · intro s h1 h2
    simp [PathQuoting.dequote, h1, h2]
  · intro s h1
    simp [PathQuoting.dequote, h1]
  · intro s ub cs h1 h2 h3 h4
    simp [PathQuoting.dequote, h1, h2, h3, h4]
  · intro s e h
    by_cases h1 : s.head? = some '"'
    · by_cases h2 : s.getLast? = some '"'
      · cases hu : PathQuoting.unescapeBytes ((utf8Encode s).tail.dropLast) with
        | error e2 =>
          have hc : PathQuoting.dequote s = .error e2 := by
            simp [PathQuoting.dequote, h1, h2, hu]
          rw [hc] at h
          injection h with he
          rw [← he]
          have hu2 : PathQuoting.unescapeBytesAux
              ((utf8Encode s).tail.dropLast).length
              ((utf8Encode s).tail.dropLast) = .error e2 := by
            simpa [PathQuoting.unescapeBytes] using hu
          have := PathQuoting.unescapeBytesAux_error
            ((utf8Encode s).tail.dropLast).length
            ((utf8Encode s).tail.dropLast) e2 (le_refl _) hu2
          tauto
        | ok ub =>
          cases hd : utf8Decode ub with
          | some cs =>
            have hc : PathQuoting.dequote s = .ok cs := by
              simp [PathQuoting.dequote, h1, h2, hu, hd]
            rw [hc] at h
            simp at h
          | none =>
            have hc : PathQuoting.dequote s = .error .unicodeDecodeError := by
              simp [PathQuoting.dequote, h1, h2, hu, hd]
            rw [hc] at h
            injection h with he
            rw [← he]
            tauto
      · have hc : PathQuoting.dequote s = .error .assertionError := by
          simp [PathQuoting.dequote, h1, h2]
        rw [hc] at h
        injection h with he
        rw [← he]
        tauto
    · have hc : PathQuoting.dequote s = .ok s := by
        simp [PathQuoting.dequote, h1]
      rw [hc] at h
      simp at h

/-- Closed instances of the amended dequote claim: a quoted escape-free path
dequotes to its body, a quoted path with no closing quote fails the assert,
and an unquoted path passes through unchanged. -/
theorem C10_dequote_amended_witness :
    PathQuoting.dequote ['"', 'a', '"'] = .ok ['a'] ∧
    PathQuoting.dequote ['"', 'a'] = .error .assertionError ∧
    PathQuoting.dequote ['a', 'b'] = .ok ['a', 'b'] := by
  refine ⟨?_, ?_, ?_⟩
  · exact C10_dequote_amended.2.2.1 ['"', 'a', '"'] [97] ['a']
      (by decide) (by decide) (by decide) (by decide)
  · exact C10_dequote_amended.1 ['"', 'a'] (by decide) (by decide)
  · exact C10_dequote_amended.2.1 ['a', 'b'] (by decide)


/-- Claim C2, counterexample: a line that does not match the diff-tree
column grammar does NOT make the parser fail with a hard parse error — the
documented behaviour of `parseDiffTreeEntry` is to return None, a non-error
result, for such a line. -/
theorem C2_parse_counterexample :
    parseDiffTreeRaw "garbage".toList = none ∧
    parseDiffTreeEntry "garbage".toList = .ok none := by
  decide

/-- Claim C2 (amended): for every input line that does not match the
expected diff-tree column grammar, `parseDiffTreeEntry` returns None (a
non-error result) rather than raising a parse error; the line is still not
silently skipped, because the translator loop immediately subscripts the
returned None, which raises TypeError and aborts the commit. -/
theorem C2_parse_amended (line : List Char) (h : parseDiffTreeRaw line = none) :
    parseDiffTreeEntry line = .ok none ∧
    ∀ st : StagingState, processDiffLine st line = .error .typeError := by
  constructor
  · simp [parseDiffTreeEntry, h]
  · intro st
    simp [processDiffLine, parseDiffTreeEntry, h]

/-- Closed instance of the amended parser claim on a concrete
non-matching line. -/
theorem C2_parse_amended_witness :
    parseDiffTreeEntry "not a diff line".toList = .ok none ∧
    processDiffLine initialStaging "not a diff line".toList = .error .typeError := by
  have h := C2_parse_amended "not a diff line".toList (by decide)
  exact ⟨h.1, h.2 initialStaging⟩

/-- Claim C3, counterexample: a commit whose diff lists an Added entry for
foo followed by a Deleted entry for the same path.  Contrary to the claim,
the Added entry does not win: the later Deleted entry removes foo from
filesToAdd and leaves it in filesToDelete, so foo IS staged for deletion
and is not staged for addition. -/
theorem C3_add_delete_counterexample :
    stagedForDeletion [exAddFoo, exDelFoo] "foo".toList = true ∧
    stagedForAddition [exAddFoo, exDelFoo] "foo".toList = false := by
  decide

/-- Claim C3 (amended): within one commit the LAST of the two entries for a
path wins, not the Added one: processing an Added entry stages the path for
addition and drops any pending delete of it, and processing a Deleted entry
stages the path for deletion and drops any pending add of it.  Hence the
Added entry wins exactly when it appears after the Deleted entry. -/
theorem C3_add_delete_amended (st : StagingState) (d : DiffTreeEntry) (p : List Char)
    (hsrc : d.src = p) :
    (d.status = 'A' → (pyIntOctal d.dst_mode).isSome = true →
      isOkSt (processEntry st d) = true ∧
      addMem (processEntry st d) p = true ∧
      delMem (processEntry st d) p = false) ∧
    (d.status = 'D' →
      isOkSt (processEntry st d) = true ∧
      delMem (processEntry st d) p = true ∧
      addMem (processEntry st d) p = false) := by
  subst hsrc
  constructor
  · intro hA hoct
    obtain ⟨m, hm⟩ := Option.isSome_iff_exists.mp hoct
    by_cases hsym : m = 0o120000
    · simp [processEntry, hA, hm, hsym, isOkSt, addMem, delMem]
    · simp [processEntry, hA, hm, hsym, isOkSt, addMem, delMem]
  · intro hD
    simp [processEntry, hD, isOkSt, addMem, delMem]

/-- Closed instance of the amended last-wins claim on the two concrete
parsed entries for foo. -/
theorem C3_add_delete_amended_witness :
    addMem (processEntry initialStaging exEntryA) "foo".toList = true ∧
    delMem (processEntry initialStaging exEntryA) "foo".toList = false ∧
    delMem (processEntry initialStaging exEntryD) "foo".toList = true ∧
    addMem (processEntry initialStaging exEntryD) "foo".toList = false := by
  have hA := (C3_add_delete_amended initialStaging exEntryA "foo".toList rfl).1
    rfl (by decide)
  have hD := (C3_add_delete_amended initialStaging exEntryD "foo".toList rfl).2 rfl
  exact ⟨hA.2.1, hA.2.2, hD.2.1, hD.2.2⟩


/-- Claim C4, counterexample: a parentless commit with an empty captured
file-change list (an empty root commit) does NOT get its file list
re-derived — the fallback's call to `GitInfo.getFileChanges` evaluates
commit.parents[0] while building the diff command and raises IndexError,
even when perfectly good single-commit diff output would be available. -/
theorem C4_fallback_counterexample :
    (exRootCommit.parents = [] ∧ exRootCommit.fileChanges = []) ∧
    effectiveFileChanges exRootCommit [exDiffLineM] = .error .indexError := by
  decide

/-- Claim C4 (amended): the Change Translator discards the captured list
exactly when it is empty or contains an entry with composite status MM,
and any other commit keeps its captured list as-is; the discarded list is
replaced by the parse of a direct single-commit diff against the commit's
first parent only when the commit HAS a parent — for a parentless commit
the fallback raises IndexError at commit.parents[0] instead of
re-deriving anything. -/
theorem C4_fallback_amended (commit : GitCommit) (diffOutput : List (List Char)) :
    ((commit.fileChanges = [] ∨ ∃ f ∈ commit.fileChanges, f.changeTypes = ['M', 'M']) →
      (commit.parents = [] →
        effectiveFileChanges commit diffOutput = .error .indexError) ∧
      (commit.parents ≠ [] →
        effectiveFileChanges commit diffOutput = readSingleParentDiff diffOutput)) ∧
    ((commit.fileChanges ≠ [] ∧ ∀ f ∈ commit.fileChanges, f.changeTypes ≠ ['M', 'M']) →
      effectiveFileChanges commit diffOutput = .ok commit.fileChanges) := by
  constructor
  · intro h
    have hcond : (commit.fileChanges.isEmpty
        || decide (0 < (commit.fileChanges.filter
              (fun f => f.changeTypes == ['M', 'M'])).length))
        = true := by
      rcases h with hnil | ⟨f, hf, hMM⟩
      · simp [hnil]
      · simp only [Bool.or_eq_true, decide_eq_true_eq]
        right
        rw [List.length_pos]
        intro hnil
        have hmem : f ∈ commit.fileChanges.filter (fun g => g.changeTypes == ['M', 'M']) := by
          rw [List.mem_filter]
          exact ⟨hf, by simp [hMM]⟩
        rw [hnil] at hmem
        simp at hmem
    constructor
    · intro hpar
      simp [effectiveFileChanges, hcond, getFileChanges, hpar]
    · intro hpar
      obtain ⟨p, ps, hps⟩ := List.exists_cons_of_ne_nil hpar
      simp [effectiveFileChanges, hcond, getFileChanges, hps]
  · intro h
    obtain ⟨h1, h2⟩ := h
    have hcond : (commit.fileChanges.isEmpty
        || decide (0 < (commit.fileChanges.filter
              (fun f => f.changeTypes == ['M', 'M'])).length))
        = false := by
      simp only [Bool.or_eq_false_iff, decide_eq_false_iff_not]
      constructor
      · simp [List.isEmpty_iff, h1]
      · intro hpos
        rw [List.length_pos] at hpos
        obtain ⟨f, hmem⟩ := List.exists_mem_of_ne_nil _ hpos
        rw [List.mem_filter] at hmem
        exact h2 f hmem.1 (by simpa using hmem.2)
    simp [effectiveFileChanges, hcond]

/-- Closed instances of the amended fallback claim: the empty-root commit
fails with IndexError, an empty captured list on a commit with a parent is
re-derived from the single-parent diff, an MM list likewise, and a plain A
list is kept. -/
theorem C4_fallback_amended_witness :
    effectiveFileChanges exRootCommit [exDiffLineM] = .error .indexError ∧
    effectiveFileChanges exChildCommit [exDiffLineM] = .ok [exFcDerivedM] ∧
    effectiveFileChanges exMMCommit [exDiffLineM] = .ok [exFcDerivedM] ∧
    effectiveFileChanges exKeepCommit [exDiffLineM] = .ok [exFcA] := by
  have h1 := (C4_fallback_amended exRootCommit [exDiffLineM]).1 (Or.inl rfl)
  have h2 := (C4_fallback_amended exChildCommit [exDiffLineM]).1 (Or.inl rfl)
  have h3 := (C4_fallback_amended exMMCommit [exDiffLineM]).1
    (Or.inr ⟨exFcMM, by decide, by decide⟩)
  have h4 := (C4_fallback_amended exKeepCommit [exDiffLineM]).2
    ⟨by decide, by decide⟩
  refine ⟨h1.1 rfl, ?_, ?_, h4⟩
  · rw [h2.2 (by decide)]
    decide
  · rw [h3.2 (by decide)]
    decide

/-- Claim C7, counterexample: on a parentless commit, a file-change entry
with unknown status X whose first filename is the EMPTY string is silently
skipped by the falsy `fc.filenames[0]` check — the translation succeeds
without any UnsupportedInitialAction error, refuting the claim that every
non-A/M/D entry is fatal. -/
theorem C7_initial_counterexample :
    (exFcX.changeTypes ≠ ['A'] ∧ exFcX.changeTypes ≠ ['M'] ∧ exFcX.changeTypes ≠ ['D']) ∧
    processInitialCommit [exFcX] = .ok [] := by
  decide

/-- Claim C7 (amended): on a parentless commit, an entry whose first
filename is empty is silently skipped whatever its status, and an entry
with no filenames raises IndexError; for an entry with a nonempty first
filename that dequotes cleanly, statuses A, M, D are processed without
error (staging rec -af, rec -e, rec -d respectively) and any other status
raises the fatal P4TLogicException. -/
theorem C7_initial_amended (fc : GitFileChanges) (f0 g : List Char)
    (hhead : fc.filenames.head? = some f0) (hne : f0 ≠ [])
    (hdq : PathQuoting.dequote f0 = .ok g) :
    (fc.changeTypes = ['A'] → processInitialFC fc = .ok [P4Cmd.recAddForce g]) ∧
    (fc.changeTypes = ['M'] → processInitialFC fc = .ok [P4Cmd.recEdit g]) ∧
    (fc.changeTypes = ['D'] → processInitialFC fc = .ok [P4Cmd.recDelete g]) ∧
    (fc.changeTypes ≠ ['A'] → fc.changeTypes ≠ ['M'] → fc.changeTypes ≠ ['D'] →
      processInitialFC fc = .error (.p4tLogicException "Action not yet implemented")) := by
  refine ⟨?_, ?_, ?_, ?_⟩
  · intro h1
    simp [processInitialFC, hhead, hne, hdq, h1]
  · intro h1
    simp [processInitialFC, hhead, hne, hdq, h1]
  · intro h1
    simp [processInitialFC, hhead, hne, hdq, h1]
  · intro h1 h2 h3
    simp [processInitialFC, hhead, hne, hdq, h1, h2, h3]

/-- Closed instances of the amended initial-import claim: an A entry stages
rec -af, an unknown-status entry with a real filename is fatal. -/
theorem C7_initial_amended_witness :
    processInitialFC exFcA = .ok [P4Cmd.recAddForce "foo".toList] ∧
    processInitialFC exFcBad = .error (.p4tLogicException "Action not yet implemented") := by
  have hA := C7_initial_amended exFcA "foo".toList "foo".toList rfl (by decide) (by decide)
  have hX := C7_initial_amended exFcBad "foo".toList "foo".toList rfl (by decide) (by decide)
  exact ⟨hA.1 rfl, hX.2.2.2 (by decide) (by decide) (by decide)⟩


/-- Claim C5, counterexample: when the history walk yields no commits, the
extraction used by the replication path (`GitInfo.getCommitDiffs`, whose
first readline check simply returns) produces a NORMAL empty result — an
empty commit list and an empty map — instead of failing with an
EmptyHistory error. -/
theorem C5_empty_history_counterexample :
    getCommitDiffs [] = .ok ([], []) := by
  rfl

/-- Claim C5 (amended): on a completely empty history the extraction used
by `missingCommits` (`getCommitDiffs`) returns the normal empty result;
only the separate `getBasicCommitInfo` reader fails, raising SystemExit
with the message "Nothing to analyze; repository is empty.". -/
theorem C5_empty_history_amended :
    getCommitDiffs [] = .ok ([], []) ∧
    getBasicCommitInfo []
      = .error (.systemExit "Nothing to analyze; repository is empty.") := by
  exact ⟨rfl, rfl⟩

/-- Claim C6: when both the per-run maximum and the batch-size ceiling are
positive, the pending-commit list returned by `missingCommits` never
exceeds the smaller of the two bounds. -/
theorem C6_batch_bounds (input : List (List Char)) (counter : List Char)
    (cbs m : Int) (hcbs : 0 < cbs) (hm : 0 < m) (l : List (List Char))
    (hres : missingCommitsList input counter cbs (some m) = some l) :
    l.length ≤ min m.toNat cbs.toNat := by
  unfold missingCommitsList at hres
  cases hgd : getCommitDiffs input with
  | error e => simp [missingCommits, hgd] at hres
  | ok p =>
    obtain ⟨cl, cs⟩ := p
    simp only [missingCommits, hgd, Option.some.injEq] at hres
    have hl : l = truncateChanges (computeMaxChanges cbs (some m)) (cursorFilter cl counter) :=
      hres.symm
    subst hl
    simp only [computeMaxChanges, truncateChanges]
    split_ifs <;>
      first
        | omega
        | (simp_all [List.length_take]; omega)

/-- Closed instance of the batch-bound claim: with batch size 1 and
maximum 5 on a two-commit history, one commit is returned. -/
theorem C6_batch_bounds_witness :
    missingCommitsList exGitLines "zzz".toList 1 (some 5) = some ["c1".toList] ∧
    ["c1".toList].length ≤ min (5 : Int).toNat (1 : Int).toNat := by
  have hres : missingCommitsList exGitLines "zzz".toList 1 (some 5) = some ["c1".toList] := by
    decide
  exact ⟨hres, C6_batch_bounds exGitLines "zzz".toList 1 5 (by decide) (by decide) _ hres⟩

/-- Claim C9, counterexample: a stale counter value zzz absent from the
extracted ids does restart from the beginning without an error, but the
returned list is NOT the entire extracted commit list unchanged — the
normal batch truncation still applies (batch size 1 on a two-commit
history returns one commit). -/
theorem C9_missing_counter_counterexample :
    getCommitDiffsList exGitLines = some ["c1".toList, "c2".toList] ∧
    ("zzz".toList ∉ ["c1".toList, "c2".toList]) ∧
    missingCommitsList exGitLines "zzz".toList 1 none = some ["c1".toList] ∧
    ["c1".toList] ≠ ["c1".toList, "c2".toList] := by
  decide

/-- Claim C9 (amended): for every persisted counter value absent from the
extracted ids, the cursor-filter step is a no-op (the ValueError from
list.index is swallowed) and no error is raised: `missingCommits` returns
the entire extracted commit list subject only to the normal
batch/maximum truncation, and exactly the entire list whenever the
computed bound is not positive. -/
theorem C9_missing_counter_amended (input : List (List Char)) (counter : List Char)
    (cbs : Int) (maximum : Option Int) (cl : List (List Char))
    (cs : List (List Char × GitCommit))
    (hgd : getCommitDiffs input = .ok (cl, cs)) (hnot : counter ∉ cl) :
    missingCommits input counter cbs maximum
      = .ok (truncateChanges (computeMaxChanges cbs maximum) cl, cs) ∧
    (computeMaxChanges cbs maximum ≤ 0 →
      missingCommits input counter cbs maximum = .ok (cl, cs)) := by
  have hcf : cursorFilter cl counter = cl := by
    unfold cursorFilter
    have hidx : cl.findIdx? (fun x => x == counter) = none := by
      rw [List.findIdx?_eq_none_iff]
      intro x hx
      have hne : x ≠ counter := fun hxc => hnot (hxc ▸ hx)
      simp [hne]
    rw [hidx]
  constructor
  · simp [missingCommits, hgd, hcf]
  · intro hle
    have ht : truncateChanges (computeMaxChanges cbs maximum) cl = cl := by
      unfold truncateChanges
      rw [if_neg (by omega)]
    simp [missingCommits, hgd, hcf, ht]

/-- Closed instance of the amended stale-counter claim: with no positive
bound, the whole two-commit history is returned for the absent counter
zzz. -/
theorem C9_missing_counter_amended_witness :
    missingCommits exGitLines "zzz".toList 0 none
      = .ok (["c1".toList, "c2".toList], exGitCommits) := by
  have h := C9_missing_counter_amended exGitLines "zzz".toList 0 none
    ["c1".toList, "c2".toList] exGitCommits (by decide) (by decide)
  exact h.2 (by decide)

/-- The last element of a nonempty cons chain, with default. -/
theorem getLastD_cons (a c : List Char) (l : List (List Char)) :
    ((a :: l).getLast?).getD c = (l.getLast?).getD a := by
  cases l with
  | nil => rfl
  | cons x xs =>
    have hs : ((x :: xs).getLast?).isSome := by
      rw [List.getLast?_isSome]
      simp
    obtain ⟨y, hy⟩ := Option.isSome_iff_exists.mp hs
    rw [List.getLast?_cons_cons, hy]
    rfl

/-- Claim C1: along every run of the replication loop, the ids actually
submitted form a prefix of the pending list on which every
`replicateCommit` returned without error; the persisted counter after the
run equals the id of the last submitted commit (the initial counter when
nothing was submitted) and never the id of a later, unattempted commit;
the transferred count equals the number of submitted commits; and the run
processes the whole list exactly when the submitted prefix is the whole
list. -/
theorem C1_cursor_after_success (repl : List Char → Bool) (endDt : Nat → Bool)
    (ids : List (List Char)) (counter0 : List Char) (n0 : Nat) :
    (∃ suffix, ids = submittedIds repl endDt ids n0 ++ suffix) ∧
    (submittedIds repl endDt ids n0).all repl = true ∧
    (replicate_commits repl endDt ids counter0 n0).1
      = ((submittedIds repl endDt ids n0).getLast?).getD counter0 ∧
    (replicate_commits repl endDt ids counter0 n0).2.1
      = n0 + (submittedIds repl endDt ids n0).length ∧
    ((replicate_commits repl endDt ids counter0 n0).2.2 = RunOutcome.completed
      ↔ submittedIds repl endDt ids n0 = ids) := by
  induction ids generalizing counter0 n0 with
  | nil =>
    refine ⟨⟨[], rfl⟩, rfl, rfl, by simp [replicate_commits, submittedIds], ?_⟩
    simp [replicate_commits, submittedIds]
  | cons id rest ih =>
    by_cases hdt : endDt n0 = true
    · refine ⟨⟨id :: rest, ?_⟩, ?_, ?_, ?_, ?_⟩ <;>
        simp [replicate_commits, submittedIds, hdt]
    · have hdt2 : endDt n0 = false := by simpa using hdt
      by_cases hrepl : repl id = true
      · obtain ⟨⟨suffix, hsuf⟩, hall, hctr, hcnt, hiff⟩ := ih id (n0 + 1)
        refine ⟨⟨suffix, ?_⟩, ?_, ?_, ?_, ?_⟩
        · simp only [submittedIds, hdt2, hrepl]
          simp only [Bool.false_eq_true, if_false, if_true, List.cons_append,
            List.cons.injEq, true_and]
          exact hsuf
        · simp [submittedIds, hdt2, hrepl, hall]
        · simp only [replicate_commits, submittedIds, hdt2, hrepl,
            Bool.false_eq_true, if_false, if_true]
          rw [hctr, getLastD_cons]
        · simp only [replicate_commits, submittedIds, hdt2, hrepl,
            Bool.false_eq_true, if_false, if_true]
          rw [hcnt]
          simp only [List.length_cons]
          omega
        · simp only [replicate_commits, submittedIds, hdt2, hrepl,
            Bool.false_eq_true, if_false, if_true]
          rw [hiff]
          simp
      · have hrepl2 : repl id = false := by simpa using hrepl
        refine ⟨⟨id :: rest, ?_⟩, ?_, ?_, ?_, ?_⟩ <;>
          simp [replicate_commits, submittedIds, hdt2, hrepl2]

/-- Closed instance of the cursor claim: four pending commits of which the
third fails; the persisted counter ends at the second commit. -/
theorem C1_cursor_after_success_witness :
    (replicate_commits (fun id => id != "c3".toList) (fun _ => false)
      ["c1".toList, "c2".toList, "c3".toList, "c4".toList] "c0".toList 0).1
      = "c2".toList := by
  have h := C1_cursor_after_success (fun id => id != "c3".toList) (fun _ => false)
    ["c1".toList, "c2".toList, "c3".toList, "c4".toList] "c0".toList 0
  rw [h.2.2.1]
  decide


/-- Unfolding of one scan step of the replace loop. -/
theorem strReplace_cons (p : Char × List Char) (rep : List Char) (c : Char) (cs : List Char) :
    strReplace p rep (c :: cs)
      = if startsWithL (p.1 :: p.2) (c :: cs) = true then
          rep ++ strReplace p rep ((c :: cs).drop (p.1 :: p.2).length)
        else c :: strReplace p rep cs := by
  rw [strReplace]

/-- A scan position where the pattern does not start is copied through. -/
theorem strReplace_skip (p : Char × List Char) (rep : List Char) (c : Char) (cs : List Char)
    (h : startsWithL (p.1 :: p.2) (c :: cs) = false) :
    strReplace p rep (c :: cs) = c :: strReplace p rep cs := by
  rw [strReplace_cons, h]
  simp

/-- A scan position where the pattern starts is replaced, the scan
resuming after the matched pattern. -/
theorem strReplace_hit (p : Char × List Char) (rep : List Char) (c : Char) (cs : List Char)
    (h : startsWithL (p.1 :: p.2) (c :: cs) = true) :
    strReplace p rep (c :: cs)
      = rep ++ strReplace p rep ((c :: cs).drop (p.1 :: p.2).length) := by
  rw [strReplace_cons, h]
  simp

/-- A pattern whose head differs from the string head does not start
there. -/
theorem startsWithL_cons_false (a b : Char) (p t : List Char) (h : a ≠ b) :
    startsWithL (a :: p) (b :: t) = false := by
  have hb : (a == b) = false := by
    rw [beq_eq_false_iff_ne]
    exact h
  simp [startsWithL, hb]

/-- The replace loop on the empty string. -/
theorem strReplace_nil (p : Char × List Char) (rep : List Char) :
    strReplace p rep [] = [] := by
  rw [strReplace]

/-- Encode stage 1: replacing the percent maps each character through
mPercent. -/
theorem encodeStage1 (l : List Char) :
    strReplace ('%', []) ['%', '2', '5'] l = l.flatMap mPercent := by
  induction l with
  | nil => rw [strReplace_nil]; rfl
  | cons x xs ih =>
    rw [List.flatMap_cons]
    by_cases h1 : x = '%'
    · subst h1
      rw [strReplace_hit ('%', []) ['%', '2', '5'] '%' xs (by rfl)]
      show ['%', '2', '5'] ++ strReplace ('%', []) ['%', '2', '5'] xs = _
      rw [ih]
      rfl
    · rw [strReplace_skip ('%', []) ['%', '2', '5'] x xs
        (startsWithL_cons_false '%' x [] xs (fun he => h1 he.symm)), ih]
      have hm : mPercent x = [x] := by simp [mPercent, h1]
      rw [hm]
      rfl


/-- Encode stage 2: the star replace leaves percent blocks intact. -/
theorem encodeStage2 (l : List Char) :
    strReplace ('*', []) ['%', '2', 'A'] (l.flatMap mPercent) = l.flatMap mPS := by
  induction l with
  | nil => rw [List.flatMap_nil, List.flatMap_nil, strReplace_nil]
  | cons x xs ih =>
    rw [List.flatMap_cons, List.flatMap_cons]
    by_cases h1 : x = '%'
    · subst h1
      show strReplace ('*', []) ['%', '2', 'A'] ('%' :: '2' :: '5' :: xs.flatMap mPercent)
        = '%' :: '2' :: '5' :: xs.flatMap mPS
      rw [strReplace_skip ('*', []) ['%', '2', 'A'] '%' ('2' :: '5' :: xs.flatMap mPercent) (by rfl)]
      rw [strReplace_skip ('*', []) ['%', '2', 'A'] '2' ('5' :: xs.flatMap mPercent) (by rfl)]
      rw [strReplace_skip ('*', []) ['%', '2', 'A'] '5' (xs.flatMap mPercent) (by rfl)]
      rw [ih]
    · by_cases h2 : x = '*'
      · subst h2
        show strReplace ('*', []) ['%', '2', 'A'] ('*' :: xs.flatMap mPercent)
          = '%' :: '2' :: 'A' :: xs.flatMap mPS
        rw [strReplace_hit ('*', []) ['%', '2', 'A'] '*' (xs.flatMap mPercent) (by rfl)]
        show ['%', '2', 'A'] ++ strReplace ('*', []) ['%', '2', 'A'] (xs.flatMap mPercent)
          = '%' :: '2' :: 'A' :: xs.flatMap mPS
        rw [ih]
        rfl
      · have hm1 : mPercent x = [x] := by simp [mPercent, h1]
        have hm2 : mPS x = [x] := by simp [mPS, h1, h2]
        rw [hm1, hm2]
        show strReplace ('*', []) ['%', '2', 'A'] (x :: xs.flatMap mPercent)
          = x :: xs.flatMap mPS
        rw [strReplace_skip ('*', []) ['%', '2', 'A'] x (xs.flatMap mPercent)
          (startsWithL_cons_false '*' x [] (xs.flatMap mPercent) (fun he => h2 he.symm)), ih]

/-- Encode stage 3: the hash replace leaves percent and star blocks
intact. -/
theorem encodeStage3 (l : List Char) :
    strReplace ('#', []) ['%', '2', '3'] (l.flatMap mPS) = l.flatMap mPSH := by
  induction l with
  | nil => rw [List.flatMap_nil, List.flatMap_nil, strReplace_nil]
  | cons x xs ih =>
    rw [List.flatMap_cons, List.flatMap_cons]
    by_cases h1 : x = '%'
    · subst h1
      show strReplace ('#', []) ['%', '2', '3'] ('%' :: '2' :: '5' :: xs.flatMap mPS)
        = '%' :: '2' :: '5' :: xs.flatMap mPSH
      rw [strReplace_skip ('#', []) ['%', '2', '3'] '%' ('2' :: '5' :: xs.flatMap mPS) (by rfl)]
      rw [strReplace_skip ('#', []) ['%', '2', '3'] '2' ('5' :: xs.flatMap mPS) (by rfl)]
      rw [strReplace_skip ('#', []) ['%', '2', '3'] '5' (xs.flatMap mPS) (by rfl)]
      rw [ih]
    · by_cases h2 : x = '*'
      · subst h2
        show strReplace ('#', []) ['%', '2', '3'] ('%' :: '2' :: 'A' :: xs.flatMap mPS)
          = '%' :: '2' :: 'A' :: xs.flatMap mPSH
        rw [strReplace_skip ('#', []) ['%', '2', '3'] '%' ('2' :: 'A' :: xs.flatMap mPS) (by rfl)]
        rw [strReplace_skip ('#', []) ['%', '2', '3'] '2' ('A' :: xs.flatMap mPS) (by rfl)]
        rw [strReplace_skip ('#', []) ['%', '2', '3'] 'A' (xs.flatMap mPS) (by rfl)]
        rw [ih]
      · by_cases h3 : x = '#'
        · subst h3
          show strReplace ('#', []) ['%', '2', '3'] ('#' :: xs.flatMap mPS)
            = '%' :: '2' :: '3' :: xs.flatMap mPSH
          rw [strReplace_hit ('#', []) ['%', '2', '3'] '#' (xs.flatMap mPS) (by rfl)]
          show ['%', '2', '3'] ++ strReplace ('#', []) ['%', '2', '3'] (xs.flatMap mPS)
            = '%' :: '2' :: '3' :: xs.flatMap mPSH
          rw [ih]
          rfl
        · have hm1 : mPS x = [x] := by simp [mPS, h1, h2]
          have hm2 : mPSH x = [x] := by simp [mPSH, h1, h2, h3]
          rw [hm1, hm2]
          show strReplace ('#', []) ['%', '2', '3'] (x :: xs.flatMap mPS)
            = x :: xs.flatMap mPSH
          rw [strReplace_skip ('#', []) ['%', '2', '3'] x (xs.flatMap mPS)
            (startsWithL_cons_false '#' x [] (xs.flatMap mPS) (fun he => h3 he.symm)), ih]

/-- Encode stage 4: the at-sign replace leaves the earlier blocks
intact. -/
theorem encodeStage4 (l : List Char) :
    strReplace ('@', []) ['%', '4', '0'] (l.flatMap mPSH) = l.flatMap mAll := by
  induction l with
  | nil => rw [List.flatMap_nil, List.flatMap_nil, strReplace_nil]
  | cons x xs ih =>
    rw [List.flatMap_cons, List.flatMap_cons]
    by_cases h1 : x = '%'
    · subst h1
      show strReplace ('@', []) ['%', '4', '0'] ('%' :: '2' :: '5' :: xs.flatMap mPSH)
        = '%' :: '2' :: '5' :: xs.flatMap mAll
      rw [strReplace_skip ('@', []) ['%', '4', '0'] '%' ('2' :: '5' :: xs.flatMap mPSH) (by rfl)]
      rw [strReplace_skip ('@', []) ['%', '4', '0'] '2' ('5' :: xs.flatMap mPSH) (by rfl)]
      rw [strReplace_skip ('@', []) ['%', '4', '0'] '5' (xs.flatMap mPSH) (by rfl)]
      rw [ih]
    · by_cases h2 : x = '*'
      · subst h2
        show strReplace ('@', []) ['%', '4', '0'] ('%' :: '2' :: 'A' :: xs.flatMap mPSH)
          = '%' :: '2' :: 'A' :: xs.flatMap mAll
        rw [strReplace_skip ('@', []) ['%', '4', '0'] '%' ('2' :: 'A' :: xs.flatMap mPSH) (by rfl)]
        rw [strReplace_skip ('@', []) ['%', '4', '0'] '2' ('A' :: xs.flatMap mPSH) (by rfl)]
        rw [strReplace_skip ('@', []) ['%', '4', '0'] 'A' (xs.flatMap mPSH) (by rfl)]
        rw [ih]
      · by_cases h3 : x = '#'
        · subst h3
          show strReplace ('@', []) ['%', '4', '0'] ('%' :: '2' :: '3' :: xs.flatMap mPSH)
            = '%' :: '2' :: '3' :: xs.flatMap mAll
          rw [strReplace_skip ('@', []) ['%', '4', '0'] '%' ('2' :: '3' :: xs.flatMap mPSH) (by rfl)]
          rw [strReplace_skip ('@', []) ['%', '4', '0'] '2' ('3' :: xs.flatMap mPSH) (by rfl)]
          rw [strReplace_skip ('@', []) ['%', '4', '0'] '3' (xs.flatMap mPSH) (by rfl)]
          rw [ih]
        · by_cases h4 : x = '@'
          · subst h4
            show strReplace ('@', []) ['%', '4', '0'] ('@' :: xs.flatMap mPSH)
              = '%' :: '4' :: '0' :: xs.flatMap mAll
            rw [strReplace_hit ('@', []) ['%', '4', '0'] '@' (xs.flatMap mPSH) (by rfl)]
            show ['%', '4', '0'] ++ strReplace ('@', []) ['%', '4', '0'] (xs.flatMap mPSH)
              = '%' :: '4' :: '0' :: xs.flatMap mAll
            rw [ih]
            rfl
          · have hm1 : mPSH x = [x] := by simp [mPSH, h1, h2, h3]
            have hm2 : mAll x = [x] := by simp [mAll, h1, h2, h3, h4]
            rw [hm1, hm2]
            show strReplace ('@', []) ['%', '4', '0'] (x :: xs.flatMap mPSH)
              = x :: xs.flatMap mAll
            rw [strReplace_skip ('@', []) ['%', '4', '0'] x (xs.flatMap mPSH)
              (startsWithL_cons_false '@' x [] (xs.flatMap mPSH) (fun he => h4 he.symm)), ih]

/-- Decode stage 1: replacing %2A restores exactly the stars; no other
encoded block and no boundary between blocks can produce a spurious
%2A occurrence. -/
theorem decodeStage1 (l : List Char) :
    strReplace ('%', ['2', 'A']) ['*'] (l.flatMap mAll) = l.flatMap mPHA := by
  induction l with
  | nil => rw [List.flatMap_nil, List.flatMap_nil, strReplace_nil]
  | cons x xs ih =>
    rw [List.flatMap_cons, List.flatMap_cons]
    by_cases h1 : x = '%'
    · subst h1
      show strReplace ('%', ['2', 'A']) ['*'] ('%' :: '2' :: '5' :: xs.flatMap mAll)
        = '%' :: '2' :: '5' :: xs.flatMap mPHA
      rw [strReplace_skip ('%', ['2', 'A']) ['*'] '%' ('2' :: '5' :: xs.flatMap mAll) (by rfl)]
      rw [strReplace_skip ('%', ['2', 'A']) ['*'] '2' ('5' :: xs.flatMap mAll) (by rfl)]
      rw [strReplace_skip ('%', ['2', 'A']) ['*'] '5' (xs.flatMap mAll) (by rfl)]
      rw [ih]
    · by_cases h2 : x = '*'
      · subst h2
        show strReplace ('%', ['2', 'A']) ['*'] ('%' :: '2' :: 'A' :: xs.flatMap mAll)
          = '*' :: xs.flatMap mPHA
        rw [strReplace_hit ('%', ['2', 'A']) ['*'] '%' ('2' :: 'A' :: xs.flatMap mAll) (by rfl)]
        show ['*'] ++ strReplace ('%', ['2', 'A']) ['*'] (xs.flatMap mAll)
          = '*' :: xs.flatMap mPHA
        rw [ih]
        rfl
      · by_cases h3 : x = '#'
        · subst h3
          show strReplace ('%', ['2', 'A']) ['*'] ('%' :: '2' :: '3' :: xs.flatMap mAll)
            = '%' :: '2' :: '3' :: xs.flatMap mPHA
          rw [strReplace_skip ('%', ['2', 'A']) ['*'] '%' ('2' :: '3' :: xs.flatMap mAll) (by rfl)]
          rw [strReplace_skip ('%', ['2', 'A']) ['*'] '2' ('3' :: xs.flatMap mAll) (by rfl)]
          rw [strReplace_skip ('%', ['2', 'A']) ['*'] '3' (xs.flatMap mAll) (by rfl)]
          rw [ih]
        · by_cases h4 : x = '@'
          · subst h4
            show strReplace ('%', ['2', 'A']) ['*'] ('%' :: '4' :: '0' :: xs.flatMap mAll)
              = '%' :: '4' :: '0' :: xs.flatMap mPHA
            rw [strReplace_skip ('%', ['2', 'A']) ['*'] '%' ('4' :: '0' :: xs.flatMap mAll) (by rfl)]
            rw [strReplace_skip ('%', ['2', 'A']) ['*'] '4' ('0' :: xs.flatMap mAll) (by rfl)]
            rw [strReplace_skip ('%', ['2', 'A']) ['*'] '0' (xs.flatMap mAll) (by rfl)]
            rw [ih]
          · have hm1 : mAll x = [x] := by simp [mAll, h1, h2, h3, h4]
            have hm2 : mPHA x = [x] := by simp [mPHA, h1, h3, h4]
            rw [hm1, hm2]
            show strReplace ('%', ['2', 'A']) ['*'] (x :: xs.flatMap mAll)
              = x :: xs.flatMap mPHA
            rw [strReplace_skip ('%', ['2', 'A']) ['*'] x (xs.flatMap mAll)
              (startsWithL_cons_false '%' x ['2', 'A'] (xs.flatMap mAll) (fun he => h1 he.symm)), ih]

/-- Decode stage 2: replacing %23 restores exactly the hashes. -/
theorem decodeStage2 (l : List Char) :
    strReplace ('%', ['2', '3']) ['#'] (l.flatMap mPHA) = l.flatMap mPA := by
  induction l with
  | nil => rw [List.flatMap_nil, List.flatMap_nil, strReplace_nil]
  | cons x xs ih =>
    rw [List.flatMap_cons, List.flatMap_cons]
    by_cases h1 : x = '%'
    · subst h1
      show strReplace ('%', ['2', '3']) ['#'] ('%' :: '2' :: '5' :: xs.flatMap mPHA)
        = '%' :: '2' :: '5' :: xs.flatMap mPA
      rw [strReplace_skip ('%', ['2', '3']) ['#'] '%' ('2' :: '5' :: xs.flatMap mPHA) (by rfl)]
      rw [strReplace_skip ('%', ['2', '3']) ['#'] '2' ('5' :: xs.flatMap mPHA) (by rfl)]
      rw [strReplace_skip ('%', ['2', '3']) ['#'] '5' (xs.flatMap mPHA) (by rfl)]
      rw [ih]
    · by_cases h3 : x = '#'
      · subst h3
        show strReplace ('%', ['2', '3']) ['#'] ('%' :: '2' :: '3' :: xs.flatMap mPHA)
          = '#' :: xs.flatMap mPA
        rw [strReplace_hit ('%', ['2', '3']) ['#'] '%' ('2' :: '3' :: xs.flatMap mPHA) (by rfl)]
        show ['#'] ++ strReplace ('%', ['2', '3']) ['#'] (xs.flatMap mPHA)
          = '#' :: xs.flatMap mPA
        rw [ih]
        rfl
      · by_cases h4 : x = '@'
        · subst h4
          show strReplace ('%', ['2', '3']) ['#'] ('%' :: '4' :: '0' :: xs.flatMap mPHA)
            = '%' :: '4' :: '0' :: xs.flatMap mPA
          rw [strReplace_skip ('%', ['2', '3']) ['#'] '%' ('4' :: '0' :: xs.flatMap mPHA) (by rfl)]
          rw [strReplace_skip ('%', ['2', '3']) ['#'] '4' ('0' :: xs.flatMap mPHA) (by rfl)]
          rw [strReplace_skip ('%', ['2', '3']) ['#'] '0' (xs.flatMap mPHA) (by rfl)]
          rw [ih]
        · have hm1 : mPHA x = [x] := by simp [mPHA, h1, h3, h4]
          have hm2 : mPA x = [x] := by simp [mPA, h1, h4]
          rw [hm1, hm2]
          show strReplace ('%', ['2', '3']) ['#'] (x :: xs.flatMap mPHA)
            = x :: xs.flatMap mPA
          rw [strReplace_skip ('%', ['2', '3']) ['#'] x (xs.flatMap mPHA)
            (startsWithL_cons_false '%' x ['2', '3'] (xs.flatMap mPHA) (fun he => h1 he.symm)), ih]

/-- Decode stage 3: replacing %40 restores exactly the at-signs. -/
theorem decodeStage3 (l : List Char) :
    strReplace ('%', ['4', '0']) ['@'] (l.flatMap mPA) = l.flatMap mPercent := by
  induction l with
  | nil => rw [List.flatMap_nil, List.flatMap_nil, strReplace_nil]
  | cons x xs ih =>
    rw [List.flatMap_cons, List.flatMap_cons]
    by_cases h1 : x = '%'
    · subst h1
      show strReplace ('%', ['4', '0']) ['@'] ('%' :: '2' :: '5' :: xs.flatMap mPA)
        = '%' :: '2' :: '5' :: xs.flatMap mPercent
      rw [strReplace_skip ('%', ['4', '0']) ['@'] '%' ('2' :: '5' :: xs.flatMap mPA) (by rfl)]
      rw [strReplace_skip ('%', ['4', '0']) ['@'] '2' ('5' :: xs.flatMap mPA) (by rfl)]
      rw [strReplace_skip ('%', ['4', '0']) ['@'] '5' (xs.flatMap mPA) (by rfl)]
      rw [ih]
    · by_cases h4 : x = '@'
      · subst h4
        show strReplace ('%', ['4', '0']) ['@'] ('%' :: '4' :: '0' :: xs.flatMap mPA)
          = '@' :: xs.flatMap mPercent
        rw [strReplace_hit ('%', ['4', '0']) ['@'] '%' ('4' :: '0' :: xs.flatMap mPA) (by rfl)]
        show ['@'] ++ strReplace ('%', ['4', '0']) ['@'] (xs.flatMap mPA)
          = '@' :: xs.flatMap mPercent
        rw [ih]
        rfl
      · have hm1 : mPA x = [x] := by simp [mPA, h1, h4]
        have hm2 : mPercent x = [x] := by simp [mPercent, h1]
        rw [hm1, hm2]
        show strReplace ('%', ['4', '0']) ['@'] (x :: xs.flatMap mPA)
          = x :: xs.flatMap mPercent
        rw [strReplace_skip ('%', ['4', '0']) ['@'] x (xs.flatMap mPA)
          (startsWithL_cons_false '%' x ['4', '0'] (xs.flatMap mPA) (fun he => h1 he.symm)), ih]

/-- Decode stage 4: replacing %25 restores exactly the percents,
recovering the original path. -/
theorem decodeStage4 (l : List Char) :
    strReplace ('%', ['2', '5']) ['%'] (l.flatMap mPercent) = l := by
  induction l with
  | nil => rw [List.flatMap_nil, strReplace_nil]
  | cons x xs ih =>
    rw [List.flatMap_cons]
    by_cases h1 : x = '%'
    · subst h1
      show strReplace ('%', ['2', '5']) ['%'] ('%' :: '2' :: '5' :: xs.flatMap mPercent)
        = '%' :: xs
      rw [strReplace_hit ('%', ['2', '5']) ['%'] '%' ('2' :: '5' :: xs.flatMap mPercent) (by rfl)]
      show ['%'] ++ strReplace ('%', ['2', '5']) ['%'] (xs.flatMap mPercent) = '%' :: xs
      rw [ih]
      rfl
    · have hm1 : mPercent x = [x] := by simp [mPercent, h1]
      rw [hm1]
      show strReplace ('%', ['2', '5']) ['%'] (x :: xs.flatMap mPercent) = x :: xs
      rw [strReplace_skip ('%', ['2', '5']) ['%'] x (xs.flatMap mPercent)
        (startsWithL_cons_false '%' x ['2', '5'] (xs.flatMap mPercent) (fun he => h1 he.symm)), ih]

/-- Claim C8: on a non-Windows platform, wildcard decoding is a left
inverse of wildcard encoding: for every path,
wildcard_decode(wildcard_encode(path)) recovers path exactly. -/
theorem C8_wildcard_roundtrip (path : List Char) :
    wildcard_decode false (wildcard_encode path) = path := by
  have he : wildcard_encode path
      = strReplace ('@', []) ['%', '4', '0'] (strReplace ('#', []) ['%', '2', '3']
          (strReplace ('*', []) ['%', '2', 'A'] (strReplace ('%', []) ['%', '2', '5'] path))) :=
    rfl
  have hd : wildcard_decode false (wildcard_encode path)
      = strReplace ('%', ['2', '5']) ['%'] (strReplace ('%', ['4', '0']) ['@']
          (strReplace ('%', ['2', '3']) ['#']
            (strReplace ('%', ['2', 'A']) ['*'] (wildcard_encode path)))) :=
    rfl
  rw [hd, he, encodeStage1, encodeStage2, encodeStage3, encodeStage4,
      decodeStage1, decodeStage2, decodeStage3, decodeStage4]

end GitP4
